import Mathlib

/-!
Verification development for the vscode-file-browser extension.

The definitions below are shallow embeddings of the extension sources:
`src/path.ts` (the Path class and the upward ignore-file lookup),
`src/fileitem.ts` (directory entries and the listing comparator),
`src/filter.ts` (the ignore rule engine) and `src/extension.ts`
(the FileBrowser controller).  Mutable objects become explicit state
passing, vscode collaborators (filesystem, prompts, workspace folders,
platform facts) become explicit parameters, and asynchronous code is
modelled twice: once with run-to-completion refreshes (`updateAtomic`),
and once as a small-step task system with the await points of
`FileBrowser.update` made explicit (namespace `Conc`), which is what the
ordering claims about overlapping refreshes are settled against.
-/

namespace FB

/-! ## Kernel-computable string operations

The model uses character-list implementations of the string functions
the source relies on (`startsWith`, `endsWith`, `toLowerCase`, `trim`,
`split`), so that every definition evaluates by reduction on concrete
inputs.  `strToLower` lowers ASCII letters, which is where the
JavaScript `toLowerCase` and this model agree on the names exercised
here. -/

def strStartsWith (s pre : String) : Bool := pre.data.isPrefixOf s.data

def strEndsWith (s post : String) : Bool := post.data.isSuffixOf s.data

def strToLower (s : String) : String := ⟨s.data.map Char.toLower⟩

def strTrim (s : String) : String :=
  ⟨((s.data.dropWhile Char.isWhitespace).reverse.dropWhile
     Char.isWhitespace).reverse⟩

def splitOnCharList (c : Char) : List Char → List (List Char)
  | [] => [[]]
  | ch :: rest =>
    match splitOnCharList c rest with
    | [] => [[]]
    | grp :: grps =>
      if ch = c then [] :: grp :: grps else (ch :: grp) :: grps

/-- Split a string at every occurrence of a character, like
`String.splitOn` with a one-character separator. -/
def strSplitOnChar (c : Char) (s : String) : List String :=
  (splitOnCharList c s.data).map String.mk

/-- Split a string into lines at `\r?\n`, like `split(/\r?\n/)`. -/
def splitRN (l : List Char) : List String :=
  (splitOnCharList '\n' l).map
    (fun line => String.mk (if line.getLast? = some '\r' then line.dropLast else line))

/-! ## vscode.FileType

vscode exposes file kinds as bit flags: File = 1, Directory = 2,
SymbolicLink = 64, combined with bitwise or (a symlink to a directory has
type 66). -/

abbrev FileType := Nat

def FileType.File : FileType := 1

def FileType.Directory : FileType := 2

def FileType.SymbolicLink : FileType := 64

/-! ## vscode.Uri

The model keeps the scheme, the authority and the path component; the
path component is kept as its list of segments (the path string is
`"/" ++ String.intercalate "/" segs`).  Query and fragment are always
empty for the Uris the extension builds, so they are omitted. -/

structure Uri where
  scheme : String
  authority : String
  segs : List String
  deriving DecidableEq, Repr

/-- Model of `vscode.Uri.file` applied to an absolute, normalized path
with the given segments: scheme `file`, empty authority. -/
def Uri.file (segs : List String) : Uri := ⟨"file", "", segs⟩

/-- One fragment step of Node's `path.posix.join`, which is what
`vscode.Uri.joinPath` applies to the path component on non-Windows
hosts: `".."` removes the final segment (and is a no-op at the root,
since `posix.join` clamps `".."` at `"/"`), `"."` and the empty fragment
leave the path unchanged, and any other fragment (not containing a
separator) is appended. -/
def joinFragment (segs : List String) (frag : String) : List String :=
  if frag = ".." then segs.dropLast
  else if frag = "." ∨ frag = "" then segs
  else segs ++ [frag]

/-- Model of `vscode.Uri.joinPath`: fold the fragments into the path
component.  Fragments that themselves contain separators are split by
the callers of this model before joining. -/
def Uri.join (u : Uri) (frags : List String) : Uri :=
  { u with segs := frags.foldl joinFragment u.segs }

/-- Render the path component as a string (`uri.path`). -/
def renderPath (segs : List String) : String :=
  "/" ++ String.intercalate "/" segs

/-- Model of `Path.id`, i.e. `uri.toString(false)`: for the Uris the
extension builds this is `scheme ++ "://" ++ authority ++ path`. -/
def Uri.id (u : Uri) : String :=
  u.scheme ++ "://" ++ u.authority ++ renderPath u.segs

namespace Path

/-- Model of `Path.append` (for a single segment): a new path with the
segment joined on. -/
def append (u : Uri) (seg : String) : Uri := u.join [seg]

/-- Model of `Path.parent`: `this.append("..")`. -/
def parent (u : Uri) : Uri := append u ".."

/-- Model of `Path.atTop`.  The source compares
`this.pathUri === Uri.joinPath(this.pathUri, "..")` with JavaScript
reference equality; `Uri.joinPath` ends in `uri.with({ path: newPath })`
and vscode's `Uri.with` returns the *same object* exactly when no
component changed.  Hence the reference comparison is true exactly when
joining `".."` leaves the path component unchanged, which for the
segment model is the list-level comparison below. -/
def atTop (u : Uri) : Bool := joinFragment u.segs ".." == u.segs

/-- Model of `Path.equals`: `this.id === other.id`. -/
def equals (u v : Uri) : Bool := u.id == v.id

/-- Length of the longest common prefix of two segment lists. -/
def commonPrefixLen : List String → List String → Nat
  | a :: as, b :: bs => if a = b then commonPrefixLen as bs + 1 else 0
  | _, _ => 0

/-- Model of Node's `path.relative` (posix) on already-absolute,
normalized paths given as segment lists: walk up out of the
non-common suffix of `src`, then down the non-common suffix of `dst`. -/
def osRelative (src dst : List String) : String :=
  let c := commonPrefixLen src dst
  String.intercalate "/" (List.replicate (src.length - c) ".." ++ dst.drop c)

/-- Model of `Path.relativeTo`: none when the authority or the scheme
differ, otherwise the OS-style relative path string. -/
def relativeTo (u : Uri) (other : Uri) : Option String :=
  if u.authority ≠ other.authority ∨ u.scheme ≠ other.scheme then none
  else some (osRelative other.segs u.segs)

/-- Model of `Path.pop`: `None` when at the top (the path is left
untouched), otherwise the path loses its final segment and the popped
segment is returned as `current.relativeTo(newUri)`.  The mutation of
the source becomes returning the new path alongside the result. -/
def pop (u : Uri) : Option String × Uri :=
  if atTop u then (none, u)
  else
    let parentUri : Uri := { u with segs := joinFragment u.segs ".." }
    (relativeTo u parentUri, parentUri)

end Path

/-! ## Filesystem collaborator

`vscode.workspace.fs` is modelled as pure query functions: `stat`
returns the FileType bits of an existing entry and `none` for a
rejected stat, `readDir` returns the raw `(name, type)` records of a
directory, `readFile` the text contents of a file.  `drives` models the
`drivelist` dependency used by the drive selector. -/

structure Fs where
  stat : Uri → Option FileType
  readDir : Uri → List (String × FileType)
  readFile : Uri → String
  drives : List String

/-- Model of `Path.isDir`.  The source computes
`!!(stat.type | FileType.Directory)`: a bitwise **or**, which is nonzero
whenever the stat succeeds, so this is true for every existing entry of
any kind (see the claims about the upward lookup). -/
def isDir (fs : Fs) (u : Uri) : Bool :=
  match fs.stat u with
  | some t => (t ||| FileType.Directory) != 0
  | none => false

/-- Model of `Path.isFile`.  Like `isDir` the source computes
`!!(stat.type | FileType.File)`, again a bitwise **or**: true for every
existing entry of any kind. -/
def isFile (fs : Fs) (u : Uri) : Bool :=
  match fs.stat u with
  | some t => (t ||| FileType.File) != 0
  | none => false

/-- The two `vscode.FileSystemError` values produced by `lookUpwards`. -/
inductive FsError
  | fileNotADirectory
  | fileNotFound
  deriving DecidableEq, Repr

theorem joinFragment_up (segs : List String) :
    joinFragment segs ".." = segs.dropLast := by
  simp [joinFragment]

theorem dropLast_length_lt {l : List String} (h : l ≠ []) :
    l.dropLast.length < l.length := by
  have hp : 0 < l.length := List.length_pos.mpr h
  simp only [List.length_dropLast]
  omega

theorem atTop_false_ne_nil {u : Uri} (h : ¬ Path.atTop u = true) :
    u.segs ≠ [] := by
  intro hnil
  apply h
  simp [Path.atTop, joinFragment, hnil]

/-- The loop body of `lookUpwards`: try every candidate name at the
current level in list order; if none matches, pop one level (the source
writes `if (path.pop().isNone())`, and `pop` returns `None` exactly at
the top, mutating the path to its parent otherwise) and repeat, or
report `FileNotFound` when already at the top. -/
def lookLoop (fs : Fs) (files : List String) (u : Uri) : Except FsError Uri :=
  match files.find? (fun f => isFile fs (Path.append u f)) with
  | some f => .ok (Path.append u f)
  | none =>
    if h : Path.atTop u = true then .error .fileNotFound
    else lookLoop fs files { u with segs := u.segs.dropLast }
termination_by u.segs.length
decreasing_by
  exact dropLast_length_lt (atTop_false_ne_nil h)

/-- Model of `lookUpwards` from `src/path.ts`: reject non-directories
(per the buggy `isDir`, this only rejects paths whose stat fails), then
walk upward with `lookLoop`. -/
def lookUpwards (fs : Fs) (files : List String) (uri : Uri) :
    Except FsError Uri :=
  if ¬ isDir fs uri then .error .fileNotADirectory
  else lookLoop fs files uri

/-- Model of `endsWithPathSeparator` from `src/path.ts` on a posix host
(where `OSPath.sep` is also `"/"`, so the second branch of the source
coincides with the first). -/
def endsWithPathSeparator (value : String) : Option String :=
  if strEndsWith value "/" then some (String.mk value.data.dropLast) else none

/-! ## src/action.ts -/

inductive Action
  | NewFile
  | NewFolder
  | OpenFile
  | OpenFileBeside
  | RenameFile
  | DeleteFile
  | OpenFolder
  | OpenFolderInNewWindow
  deriving DecidableEq, Repr

/-! ## Configuration and host facts

The `file-browser.*` settings (with their `package.json` defaults),
plus the two host facts the controller consults (`OS.platform()` and
`OS.homedir()`). -/

structure Config where
  removeIgnoredFiles : Bool := false
  hideDotfiles : Bool := true
  hideIgnoredFiles : Bool := false
  labelIgnoredFiles : Bool := false
  ignoreFileTypes : Option (List String) :=
    some [".gitignore", ".npmignore", ".vscodeignore"]
  platformWin32 : Bool := false
  homedir : Uri := Uri.file ["home", "user"]

def cfgDefault : Config := {}

/-! ## src/fileitem.ts -/

/-- Model of the `FileItem` rows handed to the quick-pick presenter.
The `label` field of the source is a presentation-only icon/name string
never consulted by any logic, so it is omitted here; `alwaysShow` is
the "visible by default" flag the ignore engine clears. -/
structure FileItem where
  name : String
  alwaysShow : Bool := true
  description : Option String := none
  fileType : Option FileType := none
  action : Option Action := none
  deriving DecidableEq, Repr

/-- Model of the `FileItem` constructor on a `(name, type)` directory
record: `alwaysShow` is false for dotfiles when `hideDotfiles` is on. -/
def FileItem.ofRecord (cfg : Config) (record : String × FileType) : FileItem :=
  { name := record.1,
    fileType := some record.2,
    alwaysShow := if cfg.hideDotfiles then !(strStartsWith record.1 ".") else true }

/-- Model of the `action(label, action)` helper from `src/action.ts`:
a synthetic row with empty name carrying an action tag. -/
def actionRow (a : Action) : FileItem :=
  { name := "", alwaysShow := true, action := some a }

/-- Model of `itemIsDir` from `src/fileitem.ts`.  The source computes
`!!(item.fileType | FileType.Directory)`: a bitwise **or**, which is
nonzero for every defined fileType, so this is true for plain files as
well (compare `fileRecordCompare` below, which masks with `&`). -/
def itemIsDir (item : FileItem) : Bool :=
  match item.fileType with
  | none => false
  | some t => (t ||| FileType.Directory) != 0

/-- Model of `fileRecordCompare` from `src/fileitem.ts`, returning the
comparator value -1/0/1.  Directory-kind records (the `Directory` bit
masked with bitwise and, so symlinks-to-directories included) sort
before the rest; ties are broken by comparing the lower-cased names,
where the string order models the code-unit order JavaScript applies to
the UTF-16 forms (identical to the code-point order used here on
strings of basic-plane characters). -/
def fileRecordCompare (left right : String × FileType) : Int :=
  let leftName := strToLower left.1
  let leftDir := (left.2 &&& FileType.Directory) == FileType.Directory
  let rightName := strToLower right.1
  let rightDir := (right.2 &&& FileType.Directory) == FileType.Directory
  if leftDir && !rightDir then -1
  else if rightDir && !leftDir then 1
  else if leftName > rightName then 1
  else if leftName = rightName then 0
  else -1

/-- Directory-kind test on a raw record, as `fileRecordCompare` masks
it. -/
def isDirRecord (rec : String × FileType) : Bool :=
  (rec.2 &&& FileType.Directory) == FileType.Directory

/-- The lower-cased name of a raw record. -/
def lowerName (rec : String × FileType) : String := strToLower rec.1

/-- Model of `records.sort(fileRecordCompare)`: ECMAScript
`Array.prototype.sort` guarantees that with a consistent comparator the
result is a stably sorted permutation of the input; insertion sort by
"compares at most 0" realises exactly that contract. -/
def sortRecords (records : List (String × FileType)) :
    List (String × FileType) :=
  List.insertionSort (fun l r => fileRecordCompare l r ≤ 0) records

/-! ## src/filter.ts -/

/-- Model of an ignore rule set: the base directory the rules are
relative to, the origin file name used for labeling, and the glob
lines. -/
structure Rules where
  path : Uri
  name : String
  rules : List String
  deriving DecidableEq, Repr

/-- Model of the private `Rules` constructor: no rules, labelled
`empty`. -/
def Rules.emptyAt (path : Uri) : Rules := ⟨path, "empty", []⟩

/-- Model of `ruleString.trim().split(/\r?\n/)`. -/
def parseLines (content : String) : List String :=
  splitRN (strTrim content).data

/-- Model of the `ignore` npm dependency (`ignore().add(rules)` followed
by `.test(path).ignored`) for the pattern shapes exercised here: a
single-segment literal pattern, optionally with a trailing separator
marking it directory-only.  A directory-only pattern `name/` matches the
path `name/` and anything below it; a plain literal `name` matches
`name` itself or anything below it.  Empty lines are ignored by the
package. -/
def ruleMatches (pat path : String) : Bool :=
  if pat = "" then false
  else if strEndsWith pat "/" then strStartsWith path pat
  else path == pat || strStartsWith path (pat ++ "/")

/-- Test a path string against every rule of a rule set. -/
def Rules.test (r : Rules) (path : String) : Bool :=
  r.rules.any (fun pat => ruleMatches pat path)

/-- Model of `Rules.read`: rules parsed from the file contents, based at
the parent directory of the rule file, named by `OSPath.basename` of
the rule file path (its final segment). -/
def Rules.read (fs : Fs) (ruleFileUri : Uri) : Rules :=
  { path := { ruleFileUri with segs := joinFragment ruleFileUri.segs ".." },
    name := (ruleFileUri.segs.getLast?).getD "",
    rules := parseLines (fs.readFile ruleFileUri) }

/-- Model of `Rules.forPath`: when candidate names are configured, look
upward from `path`; on a hit read that file, otherwise (either error)
fall back to the empty rule set based at `path`. -/
def Rules.forPath (fs : Fs) (cfg : Config) (path : Uri) : Rules :=
  match cfg.ignoreFileTypes with
  | none => Rules.emptyAt path
  | some names =>
    match lookUpwards fs names path with
    | .ok uri => Rules.read fs uri
    | .error _ => Rules.emptyAt path

/-- Model of the per-item body of `Rules.filter`: compute the item path
relative to the rule base (`none` models the thrown invariant violation
when the path is not relative to the rule base), append a separator when
`itemIsDir` holds, and on a rule hit clear `alwaysShow` and optionally
set the provenance label. -/
def Rules.filterItem (r : Rules) (cfg : Config) (base : Uri)
    (item : FileItem) : Option FileItem :=
  match Path.relativeTo (Path.append base item.name) r.path with
  | none => none
  | some rel =>
    let path := if itemIsDir item then rel ++ "/" else rel
    if r.test path then
      some { item with
              alwaysShow := false,
              description :=
                if cfg.labelIgnoredFiles then some ("(in " ++ r.name ++ ")")
                else item.description }
    else some item

/-- Model of `Rules.filter` over a listing; `none` models the exception
thrown when some item is not relative to the rule base. -/
def Rules.filter (r : Rules) (cfg : Config) (base : Uri)
    (items : List FileItem) : Option (List FileItem) :=
  items.mapM (Rules.filterItem r cfg base)

/-! ## src/extension.ts: the FileBrowser controller

The mutable `FileBrowser` object and the quick-pick fields it drives
(`current.value`, `current.items`, `current.activeItems`,
`current.title`, `current.enabled`) become one state record.  The
`updates` field is ghost instrumentation, not present in the source: it
counts how many refreshes have been started, so that "no refresh runs"
claims are expressible as state equality. -/

structure AutoCompletion where
  /-- The cursor index.  `none` models a NaN index, which the source can
  produce by taking `% 0` on an empty candidate list; every comparison
  against NaN is false, matching the `newIndex < length` guard. -/
  index : Option Int
  items : List FileItem
  deriving DecidableEq, Repr

structure BrowserState where
  path : Uri
  file : Option String
  items : List FileItem
  pathHistory : List (String × Option String)
  inActions : Bool
  keepAlive : Bool
  autoCompletion : Option AutoCompletion
  value : String
  title : String
  currentItems : List FileItem
  activeItems : List FileItem
  enabled : Bool
  updates : Nat
  deriving DecidableEq, Repr

/-- Lookup in the `pathHistory` object, with the `|| None` fallback the
source applies to a missing key. -/
def historyLookup (hist : List (String × Option String)) (key : String) :
    Option String :=
  (hist.lookup key).getD none

/-- The four synthetic rows `update` presents for a file in Actions
mode. -/
def fileActionRows : List FileItem :=
  [actionRow Action.OpenFile, actionRow Action.OpenFileBeside,
   actionRow Action.RenameFile, actionRow Action.DeleteFile]

/-- The four synthetic rows `update` presents for a folder in Actions
mode. -/
def folderActionRows : List FileItem :=
  [actionRow Action.OpenFolder, actionRow Action.OpenFolderInNewWindow,
   actionRow Action.RenameFile, actionRow Action.DeleteFile]

/-- Model of `FileBrowser.update`, run to completion with no
interleaving (the small-step model in namespace `Conc` exposes the
await points).  The boolean is false when the refresh aborted by the
ignore-filter invariant exception; the state then carries only the
mutations made before the throw.  `stat` failure is absorbed by
`Result.try(...).unwrap()` into `undefined` and yields the synthetic
"create this folder" row. -/
def updateAtomic (fs : Fs) (cfg : Config) (s : BrowserState) :
    BrowserState × Bool :=
  let s0 := { s with enabled := false,
                     title := renderPath s.path.segs,
                     value := "",
                     updates := s.updates + 1 }
  match fs.stat s0.path with
  | none =>
    let items := [actionRow Action.NewFolder]
    ({ s0 with items := items, currentItems := items, enabled := true }, true)
  | some t =>
    if s0.inActions && ((t &&& FileType.File) == FileType.File) then
      ({ s0 with items := fileActionRows, currentItems := fileActionRows,
                 enabled := true }, true)
    else if s0.inActions && ((t &&& FileType.Directory) == FileType.Directory) then
      ({ s0 with items := folderActionRows, currentItems := folderActionRows,
                 enabled := true }, true)
    else if (t &&& FileType.Directory) == FileType.Directory then
      let records := sortRecords (fs.readDir s0.path)
      let items0 := records.map (FileItem.ofRecord cfg)
      let filtered :=
        if cfg.hideIgnoredFiles then
          (Rules.forPath fs cfg s0.path).filter cfg s0.path items0
        else some items0
      match filtered with
      | none => (s0, false)
      | some items1 =>
        let items2 :=
          if cfg.removeIgnoredFiles then items1.filter (fun it => it.alwaysShow)
          else items1
        ({ s0 with items := items2, currentItems := items2,
                   activeItems := items2.filter (fun it => s0.file == some it.name),
                   enabled := true }, true)
    else
      let items := [actionRow Action.NewFolder]
      ({ s0 with items := items, currentItems := items, enabled := true }, true)

/-- Model of `FileBrowser.stepIntoFolder`: a no-op when the target
equals the current path, otherwise move there, restore the pending file
name from the history of the new path, and refresh. -/
def stepIntoFolder (fs : Fs) (cfg : Config) (s : BrowserState)
    (folder : Uri) : BrowserState :=
  if Path.equals s.path folder then s
  else
    let s1 := { s with path := folder }
    let s2 := { s1 with file := historyLookup s1.pathHistory (Uri.id s1.path) }
    (updateAtomic fs cfg s2).1

/-- Model of `FileBrowser.stepOut`: leave Actions mode; when not at the
top, record the active item under the pre-pop path, pop, pend the
popped segment and refresh; at the top on win32, enter the drive
selector (listing `drivelist` mount points as directory rows and
resetting the path and history). -/
def stepOutFn (fs : Fs) (cfg : Config) (s : BrowserState) : BrowserState :=
  let s := { s with inActions := false }
  if !(Path.atTop s.path) then
    let hist := (Uri.id s.path, s.activeItems.head?.map (fun it => it.name))
      :: s.pathHistory
    let popped := Path.pop s.path
    (updateAtomic fs cfg
      { s with pathHistory := hist, file := popped.1, path := popped.2 }).1
  else if cfg.platformWin32 then
    let items := fs.drives.map (fun d => FileItem.ofRecord cfg (d, FileType.Directory))
    let emptyPath := Uri.file []
    { s with enabled := true, title := "Drive Selector", value := "",
             items := items, currentItems := items,
             file := none, path := emptyPath,
             pathHistory := [(Uri.id emptyPath, none)] }
  else s

/-- Model of `FileBrowser.onDidChangeValue`, taking the new input text
as an argument (the presenter field `value` has already been set by
whoever changed it; the handler itself only reads it).  A non-cycling
change discards the completion cursor; trailing-separator input jumps
home, steps out, or steps into the named subdirectory; otherwise a
synthetic "open as new file" row is prepended. -/
def onDidChangeValue (fs : Fs) (cfg : Config) (s : BrowserState)
    (value : String) (isAutoComplete : Bool) : BrowserState :=
  if s.inActions then s
  else
    let s := if !isAutoComplete then { s with autoCompletion := none } else s
    let existingItem := s.items.find? (fun it => it.name == value)
    if value == "" then { s with currentItems := s.items, activeItems := [] }
    else
      match existingItem with
      | some it => { s with currentItems := s.items, activeItems := [it] }
      | none =>
        match endsWithPathSeparator value with
        | some p =>
          if p == "~" then stepIntoFolder fs cfg s cfg.homedir
          else if p == ".." then stepOutFn fs cfg s
          else stepIntoFolder fs cfg s (Path.append s.path p)
        | none =>
          let newItem : FileItem :=
            { name := value, alwaysShow := true,
              description := some "Open as new file",
              action := some Action.NewFile, fileType := none }
          { s with currentItems := newItem :: s.items, activeItems := [newItem] }

/-- Model of `FileBrowser.tabCompletion`.  With an existing cursor the
index advances by `(index + length + step) % length` (NaN when the list
is empty); otherwise the cursor is built from the items whose name
starts, case-insensitively, with the current input, indexed 0 for next
and last for previous.  When the new index clears the `< length` guard
the candidate becomes the input (a lone directory candidate gets a
trailing separator) and the change handler runs in cycling mode. -/
def tabCompletionFn (fs : Fs) (cfg : Config) (s : BrowserState)
    (tabNext : Bool) : BrowserState :=
  if s.inActions then s
  else
    let s1 :=
      match s.autoCompletion with
      | some ac =>
        let length : Int := ac.items.length
        let step : Int := if tabNext then 1 else -1
        let newIdx : Option Int :=
          match ac.index with
          | none => none
          | some i => if length == 0 then none else some ((i + length + step) % length)
        { s with autoCompletion := some { ac with index := newIdx } }
      | none =>
        let items := s.items.filter
          (fun (it : FileItem) => strStartsWith (strToLower it.name) (strToLower s.value))
        let ac : AutoCompletion :=
          ⟨some (if tabNext then 0 else (items.length : Int) - 1), items⟩
        { s with autoCompletion := some ac }
    match s1.autoCompletion with
    | none => s1
    | some ac =>
      let length : Int := ac.items.length
      match ac.index with
      | none => s1
      | some newIndex =>
        if newIndex < length then
          match (if 0 ≤ newIndex then ac.items[newIndex.toNat]? else none) with
          | none => s1
          | some item =>
            let v :=
              if length == 1 && item.fileType == some FileType.Directory then
                item.name ++ "/"
              else item.name
            onDidChangeValue fs cfg { s1 with value := v } v true
        else s1

/-- Model of `FileBrowser.actions`: a no-op when already in Actions
mode; otherwise enter Actions, pushing the active item name onto the
path when an item is active, and refresh. -/
def actionsFn (fs : Fs) (cfg : Config) (s : BrowserState) : BrowserState :=
  if s.inActions then s
  else
    match s.activeItems.head? with
    | some item =>
      (updateAtomic fs cfg
        { s with inActions := true, path := Path.append s.path item.name,
                 file := none }).1
    | none =>
      (updateAtomic fs cfg { s with inActions := true, file := none }).1

/-- Model of `OSPath.basename` for the strings exercised here: the last
separator-delimited nonempty component. -/
def basename (p : String) : String :=
  (((strSplitOnChar '/' p).filter (fun seg => seg ≠ "")).getLast?).getD p

/-- Model of `OSPath.extname`: the suffix of the basename from its last
dot, empty when the only dot is the leading one. -/
def extname (p : String) : String :=
  let base := (basename p).data
  let dotIdxs := (List.range base.length).filter (fun i => base.getD i ' ' == '.')
  match dotIdxs.getLast? with
  | some i => if i > 0 then String.mk (base.drop i) else ""
  | none => ""

/-- The externally visible effects the rename flow issues through
collaborator interfaces, in order. -/
inductive Effect
  | hidePicker
  | showPicker
  | errorMessage (msg : String)
  | inputBox (promptValue : String) (selStart selEnd : Int)
  | renameRequest (oldUri newUri : Uri)
  deriving DecidableEq, Repr

/-- Model of the `Action.RenameFile` case of `FileBrowser.runAction`.
Collaborator responses are passed in: `wsFolder` is the workspace
folder containing the path (if any), `promptResult` what the input box
returned, `renameOk` whether the filesystem rename succeeded.  The
`Except` error models the two exception exits of the source (the
unwrapped `stat` rejection and popping an empty file name; the source
message for the latter uses an apostrophe, elided here). -/
def runRename (fs : Fs) (cfg : Config) (wsFolder : Option Uri)
    (promptResult : Option String) (renameOk : Bool) (s : BrowserState) :
    Except String (BrowserState × List Effect) :=
  let s := { s with keepAlive := true }
  let uri := s.path
  match fs.stat uri with
  | none => .error "stat failed"
  | some t =>
    let isDirT := (t &&& FileType.Directory) == FileType.Directory
    match Path.pop s.path with
    | (none, _) => .error "Cannot rename an empty file name!"
    | (some fileName, parentPath) =>
      let s := { s with path := parentPath }
      let fileTypeWord := if isDirT then "folder" else "file"
      let relPath := (wsFolder.bind (fun w => Path.relativeTo uri w)).getD fileName
      let ext := extname relPath
      let startSel : Int := (relPath.length : Int) - (fileName.length : Int)
      let endSel : Int := startSel + ((fileName.length : Int) - (ext.length : Int))
      let promptEff := Effect.inputBox relPath startSel endSel
      let s := { s with file := some fileName }
      match promptResult with
      | none =>
        let s := { s with keepAlive := false, inActions := false }
        .ok ((updateAtomic fs cfg s).1,
             [Effect.hidePicker, promptEff, Effect.showPicker])
      | some result =>
        let newUri :=
          match wsFolder with
          | some w => w.join (strSplitOnChar '/' result)
          | none => s.path.join (strSplitOnChar '/' result)
        if renameOk then
          let s := { s with file := some (basename result) }
          let s := { s with keepAlive := false, inActions := false }
          .ok ((updateAtomic fs cfg s).1,
               [Effect.hidePicker, promptEff,
                Effect.renameRequest uri newUri, Effect.showPicker])
        else
          let s := { s with keepAlive := false, inActions := false }
          .ok ((updateAtomic fs cfg s).1,
               [Effect.hidePicker, promptEff,
                Effect.renameRequest uri newUri,
                Effect.errorMessage
                  ("Failed to rename " ++ fileTypeWord ++ " \"" ++ fileName ++ "\""),
                Effect.showPicker])

/-! ## Small-step model of overlapping refreshes

`FileBrowser.update` is an async method: it runs synchronously up to
`await stat(this.path.uri)` (the argument is read before suspending),
resumes on the stat response, and — in the Browsing-directory branch —
suspends again at `await readDirectory(this.path.uri)` (the argument
read at that moment, i.e. after the first resume).  Input-driven
transitions such as `stepIntoFolder` run synchronously (their mutations
plus spawning a refresh) and nothing in the source consults any busy
flag before acting: `current.busy` is only ever written.  The model
below makes those await points explicit: a `World` holds the shared
controller state plus the parked continuations of in-flight refreshes,
and a schedule is a list of events (transitions and promise
resolutions) applied in order.  It covers configurations with
`hideIgnoredFiles` disabled (enabling it only adds further await points
inside the listing branch). -/

namespace Conc

/-- A parked refresh continuation: which await of `update` it sits at,
with the argument its pending filesystem call was issued with. -/
inductive Park
  | atStat (arg : Uri)
  | atReadDir (arg : Uri)
  deriving DecidableEq, Repr

structure World where
  sh : BrowserState
  tasks : List (Nat × Park)
  nextId : Nat
  deriving DecidableEq, Repr

/-- Spawn a refresh: the synchronous prefix of `update` (disable the
widget, set title from the current path, clear the input) runs at once,
and the task parks at the stat await with the current path captured as
the argument. -/
def spawnUpdate (w : World) : World :=
  let sh := { w.sh with enabled := false,
                        title := renderPath w.sh.path.segs,
                        value := "",
                        updates := w.sh.updates + 1 }
  { sh := sh,
    tasks := w.tasks ++ [(w.nextId, Park.atStat sh.path)],
    nextId := w.nextId + 1 }

/-- Commit a synthetic row set and re-enable the widget (the tail of the
non-listing branches of `update`). -/
def commitRows (sh : BrowserState) (items : List FileItem) : BrowserState :=
  { sh with items := items, currentItems := items, enabled := true }

/-- Resume a parked refresh on its pending filesystem response.  At the
stat await the branch of `update` is chosen with the *current* shared
state; the Browsing-directory branch issues `readDirectory` with the
path as it is at that moment.  At the readDirectory await the listing
is sorted, mapped and committed over whatever the shared state has
become. -/
def resumeTask (fs : Fs) (cfg : Config) (w : World) (id : Nat) : World :=
  match w.tasks.lookup id with
  | none => w
  | some park =>
    let rest := w.tasks.filter (fun t => t.1 ≠ id)
    match park with
    | .atStat arg =>
      match fs.stat arg with
      | none =>
        { w with sh := commitRows w.sh [actionRow Action.NewFolder], tasks := rest }
      | some t =>
        if w.sh.inActions && ((t &&& FileType.File) == FileType.File) then
          { w with sh := commitRows w.sh fileActionRows, tasks := rest }
        else if w.sh.inActions && ((t &&& FileType.Directory) == FileType.Directory) then
          { w with sh := commitRows w.sh folderActionRows, tasks := rest }
        else if (t &&& FileType.Directory) == FileType.Directory then
          { w with tasks := rest ++ [(id, Park.atReadDir w.sh.path)] }
        else
          { w with sh := commitRows w.sh [actionRow Action.NewFolder], tasks := rest }
    | .atReadDir arg =>
      let records := sortRecords (fs.readDir arg)
      let items0 := records.map (FileItem.ofRecord cfg)
      let items1 :=
        if cfg.removeIgnoredFiles then items0.filter (fun it => it.alwaysShow)
        else items0
      let sh := { w.sh with
                    items := items1, currentItems := items1,
                    activeItems := items1.filter (fun it => w.sh.file == some it.name),
                    enabled := true }
      { w with sh := sh, tasks := rest }

/-- Schedule events: a `stepIntoFolder` transition (the synchronous
mutations of the source followed by spawning a refresh) or the
resolution of the filesystem promise some refresh is parked on. -/
inductive CEvent
  | stepInto (folder : Uri)
  | resume (id : Nat)
  deriving DecidableEq, Repr

def stepEvent (fs : Fs) (cfg : Config) (w : World) (e : CEvent) : World :=
  match e with
  | .stepInto folder =>
    if Path.equals w.sh.path folder then w
    else
      let sh := { w.sh with path := folder }
      let sh := { sh with file := historyLookup sh.pathHistory (Uri.id sh.path) }
      spawnUpdate { w with sh := sh }
  | .resume id => resumeTask fs cfg w id

def runEvents (fs : Fs) (cfg : Config) (w : World) (es : List CEvent) : World :=
  es.foldl (stepEvent fs cfg) w

end Conc

/-! ## Shared concrete fixtures used by witnesses -/

/-- A filesystem on which every stat fails. -/
def fsEmpty : Fs :=
  { stat := fun _ => none, readDir := fun _ => [], readFile := fun _ => "",
    drives := [] }

/-- A plain Browsing-mode session state at `/home/user/proj`. -/
def baseState : BrowserState :=
  { path := Uri.file ["home", "user", "proj"], file := none, items := [],
    pathHistory := [], inActions := false, keepAlive := false,
    autoCompletion := none, value := "", title := "", currentItems := [],
    activeItems := [], enabled := true, updates := 0 }

/-! ## Claim C2 -/

/-- C2: for every Path at the filesystem root, `pop` returns none and
leaves the path unchanged; `atTop` is true exactly for root paths (the
path component is `/`, i.e. the segment list is empty), so `pop` never
returns a present value on a root path. -/
theorem c2_pop_at_root (u : Uri) :
    (Path.atTop u = true ↔ u.segs = []) ∧
    (u.segs = [] → Path.pop u = (none, u)) := by
  have hat : Path.atTop u = true ↔ u.segs = [] := by
    rw [Path.atTop, joinFragment_up, beq_iff_eq]
    constructor
    · intro h
      by_contra hne
      have hlt := dropLast_length_lt hne
      rw [h] at hlt
      exact absurd hlt (lt_irrefl _)
    · intro h; simp [h]
  refine ⟨hat, fun h => ?_⟩
  simp [Path.pop, hat.mpr h]

/-- Witness for C2 at the concrete root path `file:///`. -/
theorem c2_pop_at_root_witness :
    Path.pop (Uri.file []) = (none, Uri.file []) :=
  (c2_pop_at_root (Uri.file [])).2 rfl

/-! ## Claim C8 -/

/-- C8: invoking `actions` while already in Actions mode leaves the
whole session state unchanged (in particular the current path, the
pending file name, the path history, the item list and the mode), and
no refresh runs (the ghost refresh counter is unchanged). -/
theorem c8_actions_noop_in_actions (fs : Fs) (cfg : Config)
    (s : BrowserState) (h : s.inActions = true) :
    actionsFn fs cfg s = s := by
  simp [actionsFn, h]

/-- Witness for C8 at a concrete Actions-mode state. -/
theorem c8_actions_noop_witness :
    ({ baseState with inActions := true } : BrowserState).inActions = true ∧
    actionsFn fsEmpty cfgDefault { baseState with inActions := true } =
      { baseState with inActions := true } :=
  ⟨rfl, c8_actions_noop_in_actions fsEmpty cfgDefault _ rfl⟩

/-! ## Claim C10 -/

/-- C10: a step-into-folder request whose target equals the current
path leaves the whole session state unchanged and starts no refresh;
in particular the target produced by free-text input `./` (the current
path joined with `.`) always satisfies the equality, and the value
change handler on `./` only discards the completion cursor. -/
theorem c10_step_into_same_path_noop (fs : Fs) (cfg : Config)
    (s : BrowserState) (folder : Uri)
    (h : Path.equals s.path folder = true) :
    stepIntoFolder fs cfg s folder = s ∧
    stepIntoFolder fs cfg s (Path.append s.path ".") = s ∧
    (s.inActions = false →
      s.items.find? (fun it => it.name == "./") = none →
      onDidChangeValue fs cfg s "./" false = { s with autoCompletion := none }) := by
  have hdot : Path.append s.path "." = s.path := by
    simp [Path.append, Uri.join, joinFragment]
  refine ⟨by simp [stepIntoFolder, h], by simp [stepIntoFolder, hdot, Path.equals], ?_⟩
  intro hb hfind
  have hsep : endsWithPathSeparator "./" = some "." := by decide
  simp [onDidChangeValue, hb, hfind, hsep, stepIntoFolder, hdot, Path.equals]

/-- Witness for C10: stepping into the current path itself is the
identity on a concrete state. -/
theorem c10_step_into_same_path_witness :
    Path.equals baseState.path baseState.path = true ∧
    stepIntoFolder fsEmpty cfgDefault baseState baseState.path = baseState :=
  ⟨by simp [Path.equals],
   (c10_step_into_same_path_noop fsEmpty cfgDefault baseState baseState.path
      (by simp [Path.equals])).1⟩

/-! ## Claim C6 -/

/-- Kind rank of a record as the comparator orders kinds: directories
first. -/
def recRank (rec : String × FileType) : Nat :=
  if isDirRecord rec then 0 else 1

theorem strCmp_le_iff (a b : String) :
    ((if a > b then (1 : Int) else if a = b then 0 else -1) ≤ 0) ↔ a ≤ b := by
  rcases lt_trichotomy a b with h | h | h
  · simp [lt_asymm h, ne_of_lt h, le_of_lt h]
  · simp [h]
  · simp [h, not_le.mpr h]

theorem fileRecordCompare_le_iff (l r : String × FileType) :
    fileRecordCompare l r ≤ 0 ↔
      (recRank l < recRank r ∨
        (recRank l = recRank r ∧ lowerName l ≤ lowerName r)) := by
  have hstr := strCmp_le_iff (strToLower l.1) (strToLower r.1)
  unfold fileRecordCompare recRank isDirRecord lowerName
  cases hl : ((l.2 &&& FileType.Directory) == FileType.Directory) <;>
    cases hr : ((r.2 &&& FileType.Directory) == FileType.Directory)
  · simp only [hl, hr]
    simp at hstr ⊢
    exact hstr
  · simp [hl, hr]
  · simp [hl, hr]
  · simp only [hl, hr]
    simp at hstr ⊢
    exact hstr

theorem recRank_eq_zero_iff (rec : String × FileType) :
    recRank rec = 0 ↔ isDirRecord rec = true := by
  unfold recRank
  cases h : isDirRecord rec <;> simp [h]

/-- C6: the sorted listing is a permutation of the records in which
every directory-kind entry (the Directory bit set, so symlinks to
directories included) precedes every file-kind entry and, within each
kind, entries appear in nondecreasing order of their lower-cased names;
moreover the comparator applies no secondary criterion: records of
equal kind and equal lower-cased name compare equal. -/
theorem c6_sort_dirs_before_files (records : List (String × FileType)) :
    (sortRecords records).Pairwise
      (fun l r => (isDirRecord r = true → isDirRecord l = true) ∧
        (isDirRecord l = isDirRecord r → lowerName l ≤ lowerName r)) ∧
    List.Perm (sortRecords records) records ∧
    (∀ l r : String × FileType, isDirRecord l = isDirRecord r →
      lowerName l = lowerName r → fileRecordCompare l r = 0) ∧
    (∀ name : String,
      isDirRecord (name, FileType.Directory ||| FileType.SymbolicLink) = true) := by
  haveI htot : IsTotal (String × FileType) (fun l r => fileRecordCompare l r ≤ 0) := by
    constructor
    intro a b
    rw [fileRecordCompare_le_iff, fileRecordCompare_le_iff]
    rcases Nat.lt_trichotomy (recRank a) (recRank b) with h | h | h
    · exact Or.inl (Or.inl h)
    · rcases le_total (lowerName a) (lowerName b) with hle | hle
      · exact Or.inl (Or.inr ⟨h, hle⟩)
      · exact Or.inr (Or.inr ⟨h.symm, hle⟩)
    · exact Or.inr (Or.inl h)
  haveI htr : IsTrans (String × FileType) (fun l r => fileRecordCompare l r ≤ 0) := by
    constructor
    intro a b c hab hbc
    rw [fileRecordCompare_le_iff] at hab hbc ⊢
    rcases hab with h1 | ⟨h1, h1s⟩ <;> rcases hbc with h2 | ⟨h2, h2s⟩
    · exact Or.inl (h1.trans h2)
    · exact Or.inl (h2 ▸ h1)
    · exact Or.inl (h1 ▸ h2)
    · exact Or.inr ⟨h1.trans h2, h1s.trans h2s⟩
  refine ⟨?_, ?_, ?_, ?_⟩
  · have hs := List.sorted_insertionSort (fun l r => fileRecordCompare l r ≤ 0) records
    refine List.Pairwise.imp ?_ hs
    intro a b hab
    rw [fileRecordCompare_le_iff] at hab
    constructor
    · intro hdirb
      rcases hab with h | ⟨h, _⟩
      · have hb0 : recRank b = 0 := (recRank_eq_zero_iff b).mpr hdirb
        rw [hb0] at h
        exact absurd h (Nat.not_lt_zero _)
      · have hb0 : recRank b = 0 := (recRank_eq_zero_iff b).mpr hdirb
        rw [hb0] at h
        exact (recRank_eq_zero_iff a).mp h
    · intro hkind
      have hrank : recRank a = recRank b := by
        unfold recRank
        rw [hkind]
      rcases hab with h | ⟨_, hs⟩
      · rw [hrank] at h
        exact absurd h (lt_irrefl _)
      · exact hs
  · exact List.perm_insertionSort (fun l r => fileRecordCompare l r ≤ 0) records
  · intro l r hkind hname
    unfold fileRecordCompare
    unfold isDirRecord at hkind
    unfold lowerName at hname
    rw [hname, hkind]
    cases hr : ((r.2 &&& FileType.Directory) == FileType.Directory) <;>
      simp [hr]
  · intro name
    show ((FileType.Directory ||| FileType.SymbolicLink) &&&
      FileType.Directory == FileType.Directory) = true
    rfl

/-- Witness for C6: the no-secondary-criterion clause at records of
equal kind whose names differ only by case. -/
theorem c6_sort_witness :
    fileRecordCompare ("A.txt", FileType.File) ("a.TXT", FileType.File) = 0 :=
  (c6_sort_dirs_before_files []).2.2.1 ("A.txt", FileType.File)
    ("a.TXT", FileType.File) rfl (by decide)

/-! ## Claims C3 and C4: the upward ignore-file lookup -/

theorem isFile_congr {fs fs2 : Fs} (h : fs2.stat = fs.stat) (u : Uri) :
    isFile fs2 u = isFile fs u := by
  simp [isFile, h]

theorem isDir_congr {fs fs2 : Fs} (h : fs2.stat = fs.stat) (u : Uri) :
    isDir fs2 u = isDir fs u := by
  simp [isDir, h]

/-- When some candidate name matches at the current level, the first
match in candidate-list order wins immediately, regardless of anything
at ancestor levels. -/
theorem lookLoop_find {fs : Fs} {files : List String} {u : Uri} {f : String}
    (hf : files.find? (fun g => isFile fs (Path.append u g)) = some f) :
    lookLoop fs files u = .ok (Path.append u f) := by
  rw [lookLoop.eq_def, hf]

theorem lookUpwards_of_isDir {fs : Fs} {files : List String} {u : Uri}
    (hdir : isDir fs u = true) :
    lookUpwards fs files u = lookLoop fs files u := by
  simp [lookUpwards, hdir]

/-- The upward walk depends on the filesystem only through `stat`. -/
theorem lookLoop_stat_congr {fs fs2 : Fs} (h : fs2.stat = fs.stat)
    (files : List String) :
    ∀ (n : Nat) (u : Uri), u.segs.length ≤ n →
      lookLoop fs2 files u = lookLoop fs files u := by
  intro n
  induction n with
  | zero =>
    intro u hu
    have hnil : u.segs = [] := List.length_eq_zero.mp (Nat.le_zero.mp hu)
    have htop : Path.atTop u = true := (c2_pop_at_root u).1.mpr hnil
    have hfun : (fun g => isFile fs2 (Path.append u g)) =
        (fun g => isFile fs (Path.append u g)) :=
      funext fun g => isFile_congr h (Path.append u g)
    conv_lhs => rw [lookLoop.eq_def]
    conv_rhs => rw [lookLoop.eq_def]
    rw [hfun]
    cases hfind : files.find? (fun g => isFile fs (Path.append u g)) with
    | some f => rfl
    | none => rw [dif_pos htop, dif_pos htop]
  | succ n ih =>
    intro u hu
    have hfun : (fun g => isFile fs2 (Path.append u g)) =
        (fun g => isFile fs (Path.append u g)) :=
      funext fun g => isFile_congr h (Path.append u g)
    conv_lhs => rw [lookLoop.eq_def]
    conv_rhs => rw [lookLoop.eq_def]
    rw [hfun]
    cases hfind : files.find? (fun g => isFile fs (Path.append u g)) with
    | some f => rfl
    | none =>
      by_cases htop : Path.atTop u = true
      · rw [dif_pos htop, dif_pos htop]
      · have hne : u.segs ≠ [] := atTop_false_ne_nil htop
        have hlen : ({ u with segs := u.segs.dropLast } : Uri).segs.length ≤ n := by
          show u.segs.dropLast.length ≤ n
          rw [List.length_dropLast]
          omega
        rw [dif_neg htop, dif_neg htop]
        exact ih { u with segs := u.segs.dropLast } hlen

/-- Appending a plain segment (not empty, not a dot fragment) extends
the segment list. -/
theorem append_segs (u : Uri) (s : String) (h1 : s ≠ "..") (h2 : s ≠ ".")
    (h3 : s ≠ "") : (Path.append u s).segs = u.segs ++ [s] := by
  simp [Path.append, Uri.join, joinFragment, h1, h2, h3]

/-- C4: when a candidate name matches at the starting level, the first
match in the configured order is the one resolved — ancestors are never
consulted; with candidates `.gitignore` then `.npmignore` both present
in the starting directory, the resolved rule set is read from
`.gitignore` (its name and parsed contents come from that file), and
the result is unchanged under any modification of the filesystem that
preserves `stat` answers and the contents of that one file — in
particular `.npmignore` is never read. -/
theorem c4_first_candidate_wins (fs : Fs) (cfg : Config) (u : Uri)
    (files : List String) (f : String) :
    (isDir fs u = true →
      files.find? (fun g => isFile fs (Path.append u g)) = some f →
      lookUpwards fs files u = .ok (Path.append u f)) ∧
    (cfg.ignoreFileTypes = some [".gitignore", ".npmignore"] →
      isDir fs u = true →
      isFile fs (Path.append u ".gitignore") = true →
      Rules.forPath fs cfg u = Rules.read fs (Path.append u ".gitignore") ∧
      (Rules.forPath fs cfg u).name = ".gitignore" ∧
      (Rules.forPath fs cfg u).rules =
        parseLines (fs.readFile (Path.append u ".gitignore")) ∧
      (∀ fs2 : Fs, fs2.stat = fs.stat →
        fs2.readFile (Path.append u ".gitignore") =
          fs.readFile (Path.append u ".gitignore") →
        Rules.forPath fs2 cfg u = Rules.forPath fs cfg u)) := by
  constructor
  · intro hdir hfind
    rw [lookUpwards_of_isDir hdir, lookLoop_find hfind]
  · intro hcfg hdir hfile
    have hfind : [".gitignore", ".npmignore"].find?
        (fun g => isFile fs (Path.append u g)) = some ".gitignore" := by
      simp [List.find?, hfile]
    have hlook : lookUpwards fs [".gitignore", ".npmignore"] u =
        .ok (Path.append u ".gitignore") := by
      rw [lookUpwards_of_isDir hdir, lookLoop_find hfind]
    have hfp : Rules.forPath fs cfg u = Rules.read fs (Path.append u ".gitignore") := by
      simp [Rules.forPath, hcfg, hlook]
    refine ⟨hfp, ?_, ?_, ?_⟩
    · rw [hfp]
      simp [Rules.read, append_segs u ".gitignore" (by decide) (by decide) (by decide)]
    · rw [hfp]
      simp [Rules.read]
    · intro fs2 hstat hread
      have hlook2 : lookUpwards fs2 [".gitignore", ".npmignore"] u =
          .ok (Path.append u ".gitignore") := by
        rw [lookUpwards, isDir_congr hstat u,
          lookLoop_stat_congr hstat _ u.segs.length u (le_refl _)]
        rw [← lookUpwards]
        exact hlook
      have hfp2 : Rules.forPath fs2 cfg u =
          Rules.read fs2 (Path.append u ".gitignore") := by
        simp [Rules.forPath, hcfg, hlook2]
      rw [hfp2, hfp]
      simp [Rules.read, hread]

/-- Concrete fixtures for the ignore-lookup claims: `/proj` containing
both a `.gitignore` file and an `.npmignore` file. -/
def u4 : Uri := Uri.file ["proj"]

def fs4 : Fs :=
  { stat := fun u =>
      if u = u4 then some FileType.Directory
      else if u = Uri.file ["proj", ".gitignore"] then some FileType.File
      else if u = Uri.file ["proj", ".npmignore"] then some FileType.File
      else none,
    readDir := fun _ => [],
    readFile := fun u =>
      if u = Uri.file ["proj", ".gitignore"] then "node_modules/"
      else "from-npmignore",
    drives := [] }

def cfg4 : Config :=
  { cfgDefault with ignoreFileTypes := some [".gitignore", ".npmignore"] }

/-- Witness for C4: with both files present in `/proj`, the resolved
rule set is named after `.gitignore`. -/
theorem c4_first_candidate_wins_witness :
    isDir fs4 u4 = true ∧
    isFile fs4 (Path.append u4 ".gitignore") = true ∧
    (Rules.forPath fs4 cfg4 u4).name = ".gitignore" :=
  ⟨by decide, by decide,
   ((c4_first_candidate_wins fs4 cfg4 u4 [".gitignore", ".npmignore"]
      ".gitignore").2 rfl (by decide) (by decide)).2.1⟩

/-- Concrete fixture for C3: `/x` is a directory whose entry
`.gitignore` is itself a *directory*; no file-kind entry exists
anywhere. -/
def fsC3 : Fs :=
  { stat := fun u =>
      if u = Uri.file ["x"] then some FileType.Directory
      else if u = Uri.file ["x", ".gitignore"] then some FileType.Directory
      else none,
    readDir := fun _ => [],
    readFile := fun _ => "",
    drives := [] }

/-- C3 (code bug witness): on a filesystem with no file-kind entry at
all — so no candidate ignore *file* exists at any level — the upward
lookup nevertheless returns Ok with the URI of a *directory* named
`.gitignore`, instead of the NotFound outcome, because `isFile`
computes `stat.type | FileType.File` (bitwise or), which accepts every
existing entry. -/
theorem c3_lookUpwards_accepts_directory_candidate :
    (∀ u : Uri, fsC3.stat u = some FileType.Directory ∨ fsC3.stat u = none) ∧
    fsC3.stat (Uri.file ["x", ".gitignore"]) = some FileType.Directory ∧
    lookUpwards fsC3 [".gitignore"] (Uri.file ["x"]) =
      .ok (Uri.file ["x", ".gitignore"]) := by
  refine ⟨?_, rfl, ?_⟩
  · intro u
    simp only [fsC3]
    split
    · exact Or.inl rfl
    · split
      · exact Or.inl rfl
      · exact Or.inr rfl
  · have hfind : [".gitignore"].find?
        (fun g => isFile fsC3 (Path.append (Uri.file ["x"]) g)) =
        some ".gitignore" := by decide
    rw [lookUpwards_of_isDir (by decide), lookLoop_find hfind]
    rfl

/-! ## Claim C5: directory-only patterns and itemIsDir -/

/-- The rule set for the C5 fixture: the single directory-only pattern
`node_modules/`, based at `/proj`. -/
def rulesC5 : Rules := ⟨Uri.file ["proj"], ".gitignore", ["node_modules/"]⟩

def itemNodeModulesFile : FileItem :=
  FileItem.ofRecord cfgDefault ("node_modules", FileType.File)

def itemBackupFile : FileItem :=
  FileItem.ofRecord cfgDefault ("node_modules_backup", FileType.File)

/-- C5 (code bug witness): `itemIsDir` computes
`item.fileType | FileType.Directory` (bitwise or), which is true for a
plain file, so the trailing separator is appended for file entries too
and the directory-only pattern `node_modules/` marks a *file* named
`node_modules` as ignored (`alwaysShow` cleared); the differently named
`node_modules_backup` is, as the claim states, left unmarked. -/
theorem c5_file_item_marked_by_directory_pattern :
    itemNodeModulesFile.fileType = some FileType.File ∧
    itemIsDir itemNodeModulesFile = true ∧
    Rules.filter rulesC5 cfgDefault (Uri.file ["proj"])
        [itemNodeModulesFile, itemBackupFile] =
      some [{ itemNodeModulesFile with alwaysShow := false }, itemBackupFile] := by
  refine ⟨rfl, rfl, ?_⟩
  decide

/-! ## Frame lemmas for the controller -/

/-- A refresh never touches the path, the pending file name, the
history, the mode, the keep-alive flag or the completion cursor, and it
bumps the refresh counter exactly once (also when it aborts in the
ignore filter). -/
theorem updateAtomic_proj (fs : Fs) (cfg : Config) (s : BrowserState) :
    ((updateAtomic fs cfg s).1).path = s.path ∧
    ((updateAtomic fs cfg s).1).file = s.file ∧
    ((updateAtomic fs cfg s).1).pathHistory = s.pathHistory ∧
    ((updateAtomic fs cfg s).1).inActions = s.inActions ∧
    ((updateAtomic fs cfg s).1).keepAlive = s.keepAlive ∧
    ((updateAtomic fs cfg s).1).autoCompletion = s.autoCompletion ∧
    ((updateAtomic fs cfg s).1).updates = s.updates + 1 := by
  simp only [updateAtomic]
  repeat' split
  all_goals exact ⟨rfl, rfl, rfl, rfl, rfl, rfl, rfl⟩

theorem stepIntoFolder_autoCompletion (fs : Fs) (cfg : Config)
    (s : BrowserState) (folder : Uri) :
    (stepIntoFolder fs cfg s folder).autoCompletion = s.autoCompletion := by
  unfold stepIntoFolder
  split
  · rfl
  · rw [(updateAtomic_proj fs cfg _).2.2.2.2.2.1]

theorem stepOutFn_autoCompletion (fs : Fs) (cfg : Config) (s : BrowserState) :
    (stepOutFn fs cfg s).autoCompletion = s.autoCompletion := by
  simp only [stepOutFn]
  split
  · rw [(updateAtomic_proj fs cfg _).2.2.2.2.2.1]
  · split <;> rfl

/-- A cycling-mode value change (the handler invoked from
`tabCompletion` with `isAutoComplete = true`) never discards or changes
the completion cursor. -/
theorem onDidChangeValue_cursor_in_cycling (fs : Fs) (cfg : Config)
    (s : BrowserState) (v : String) :
    (onDidChangeValue fs cfg s v true).autoCompletion = s.autoCompletion := by
  unfold onDidChangeValue
  split
  · rfl
  · simp only [Bool.not_true, Bool.false_eq_true, if_false]
    split
    · rfl
    · split
      · rfl
      · split
        · split
          · rw [stepIntoFolder_autoCompletion]
          · split
            · rw [stepOutFn_autoCompletion]
            · rw [stepIntoFolder_autoCompletion]
        · rfl

/-! ## Claim C7: tab completion -/

/-- The scenario listing: two plain files matching the prefix `te`. -/
def itemTemp : FileItem := FileItem.ofRecord cfgDefault ("temp.txt", FileType.File)

def itemTest : FileItem := FileItem.ofRecord cfgDefault ("test.txt", FileType.File)

/-- The scenario state: Browsing, listing `[temp.txt, test.txt]`, typed
prefix `te`, no cursor yet. -/
def s7 : BrowserState :=
  { baseState with items := [itemTemp, itemTest],
                   currentItems := [itemTemp, itemTest], value := "te" }

/-- C7: with an existing cursor over a nonempty candidate list, a
repeated trigger advances the index by +1 (next) or -1 (previous)
modulo the candidate count, wrapping in both directions; with zero
candidates the trigger leaves the input text, the shown items, the
active items and the path untouched; a first trigger builds the cursor
from the items whose lower-cased name starts with the lower-cased
input, in listing order, indexed 0 for next and last for previous; and
on the concrete listing `[temp.txt, test.txt]` with prefix `te`,
successive next-triggers select `temp.txt`, `test.txt`, then wrap to
`temp.txt`, while an initial previous-trigger selects `test.txt`. -/
theorem c7_tab_completion_cycling (fs : Fs) (cfg : Config)
    (s : BrowserState) (ac : AutoCompletion) (i : Int) :
    (s.inActions = false → s.autoCompletion = some ac → ac.index = some i →
      0 ≤ i → 0 < ac.items.length →
      (tabCompletionFn fs cfg s true).autoCompletion =
        some { ac with index := some ((i + 1) % (ac.items.length : Int)) }) ∧
    (s.inActions = false → s.autoCompletion = some ac → ac.index = some i →
      0 ≤ i → 0 < ac.items.length →
      (tabCompletionFn fs cfg s false).autoCompletion =
        some { ac with index := (some
          ((i + (ac.items.length : Int) - 1) % (ac.items.length : Int))) }) ∧
    (∀ b, s.inActions = false → s.autoCompletion = some ac → ac.items = [] →
      (tabCompletionFn fs cfg s b).value = s.value ∧
      (tabCompletionFn fs cfg s b).currentItems = s.currentItems ∧
      (tabCompletionFn fs cfg s b).activeItems = s.activeItems ∧
      (tabCompletionFn fs cfg s b).path = s.path) ∧
    (∀ b, s.inActions = false → s.autoCompletion = none →
      (tabCompletionFn fs cfg s b).autoCompletion =
        some ⟨some (if b then 0 else
            ((s.items.filter (fun it =>
              strStartsWith (strToLower it.name) (strToLower s.value))).length : Int) - 1),
          s.items.filter (fun it =>
            strStartsWith (strToLower it.name) (strToLower s.value))⟩) ∧
    ((tabCompletionFn fsEmpty cfgDefault s7 true).value = "temp.txt" ∧
     (tabCompletionFn fsEmpty cfgDefault
        (tabCompletionFn fsEmpty cfgDefault s7 true) true).value = "test.txt" ∧
     (tabCompletionFn fsEmpty cfgDefault (tabCompletionFn fsEmpty cfgDefault
        (tabCompletionFn fsEmpty cfgDefault s7 true) true) true).value = "temp.txt" ∧
     (tabCompletionFn fsEmpty cfgDefault s7 false).value = "test.txt") := by
  have hadv : ∀ (b : Bool), s.inActions = false → s.autoCompletion = some ac →
      ac.index = some i → 0 ≤ i → 0 < ac.items.length →
      (tabCompletionFn fs cfg s b).autoCompletion =
        some { ac with index := (some
          ((i + (ac.items.length : Int) + (if b then 1 else -1)) %
            (ac.items.length : Int))) } := by
    intro b h1 h2 h3 h4 h5
    obtain ⟨idx, items⟩ := ac
    have hidx : idx = some i := h3
    subst hidx
    have hlpos : (0 : Int) < (items.length : Int) := by exact_mod_cast h5
    have hne : (((items.length : Int)) == 0) = false := by
      rw [beq_eq_false_iff_ne]
      omega
    have hge : 0 ≤ (i + (items.length : Int) + (if b then 1 else -1)) %
        (items.length : Int) := Int.emod_nonneg _ (ne_of_gt hlpos)
    have hlt : (i + (items.length : Int) + (if b then 1 else -1)) %
        (items.length : Int) < (items.length : Int) := Int.emod_lt_of_pos _ hlpos
    have htoNat : ((i + (items.length : Int) + (if b then 1 else -1)) %
        (items.length : Int)).toNat < items.length := by omega
    have hsome := List.getElem?_eq_getElem htoNat
    simp only [tabCompletionFn, h1, Bool.false_eq_true, if_false, h2, hne,
      hsome, if_pos hge, if_pos hlt]
    rw [onDidChangeValue_cursor_in_cycling]
  refine ⟨?_, ?_, ?_, ?_, ?_, ?_, ?_, ?_⟩
  · intro h1 h2 h3 h4 h5
    rw [hadv true h1 h2 h3 h4 h5]
    have hif : (if (true : Bool) then (1 : Int) else -1) = 1 := rfl
    rw [hif]
    have harith : i + (ac.items.length : Int) + 1 =
        (i + 1) + (ac.items.length : Int) * 1 := by ring
    rw [harith, Int.add_mul_emod_self_left]
  · intro h1 h2 h3 h4 h5
    rw [hadv false h1 h2 h3 h4 h5]
    have hif : (if (false : Bool) then (1 : Int) else -1) = -1 := rfl
    rw [hif]
    have harith : i + (ac.items.length : Int) + -1 =
        i + (ac.items.length : Int) - 1 := by ring
    rw [harith]
  · intro b h1 h2 h3
    obtain ⟨idx, items⟩ := ac
    have hnil : items = [] := h3
    subst hnil
    cases idx with
    | none =>
      simp [tabCompletionFn, h1, h2]
    | some j =>
      simp [tabCompletionFn, h1, h2]
  · intro b h1 h2
    by_cases hb : b
    · subst hb
      by_cases hlen : 0 < (s.items.filter (fun it =>
          strStartsWith (strToLower it.name) (strToLower s.value))).length
      · have hlpos : (0 : Int) < ((s.items.filter (fun it =>
            strStartsWith (strToLower it.name) (strToLower s.value))).length : Int) := by
          exact_mod_cast hlen
        have htoNat : ((0 : Int)).toNat < (s.items.filter (fun it =>
            strStartsWith (strToLower it.name) (strToLower s.value))).length := by
          omega
        have hsome := List.getElem?_eq_getElem htoNat
        simp only [tabCompletionFn, h1, Bool.false_eq_true, if_false, if_true, h2,
          hsome, if_pos hlpos, if_pos (le_refl (0 : Int))]
        rw [onDidChangeValue_cursor_in_cycling]
      · have hzero : ¬ ((0 : Int) < ((s.items.filter (fun it =>
            strStartsWith (strToLower it.name) (strToLower s.value))).length : Int)) := by
          intro hcon
          exact hlen (by exact_mod_cast hcon)
        simp only [tabCompletionFn, h1, Bool.false_eq_true, if_false, if_true, h2,
          if_neg hzero]
    · have hb2 : b = false := Bool.eq_false_iff.mpr hb
      subst hb2
      by_cases hlen : 0 < (s.items.filter (fun it =>
          strStartsWith (strToLower it.name) (strToLower s.value))).length
      · have hge : (0 : Int) ≤ ((s.items.filter (fun it =>
            strStartsWith (strToLower it.name) (strToLower s.value))).length : Int) - 1 := by
          omega
        have hlt : ((s.items.filter (fun it =>
            strStartsWith (strToLower it.name) (strToLower s.value))).length : Int) - 1 <
            ((s.items.filter (fun it =>
              strStartsWith (strToLower it.name) (strToLower s.value))).length : Int) := by
          omega
        have htoNat : (((s.items.filter (fun it =>
            strStartsWith (strToLower it.name) (strToLower s.value))).length : Int) - 1).toNat <
            (s.items.filter (fun it =>
              strStartsWith (strToLower it.name) (strToLower s.value))).length := by
          omega
        have hsome := List.getElem?_eq_getElem htoNat
        simp only [tabCompletionFn, h1, Bool.false_eq_true, if_false, if_true, h2,
          hsome, if_pos hge, if_pos hlt]
        rw [onDidChangeValue_cursor_in_cycling]
      · have hneg : ¬ ((0 : Int) ≤ ((s.items.filter (fun it =>
            strStartsWith (strToLower it.name) (strToLower s.value))).length : Int) - 1) := by
          omega
        have hlt : ((s.items.filter (fun it =>
            strStartsWith (strToLower it.name) (strToLower s.value))).length : Int) - 1 <
            ((s.items.filter (fun it =>
              strStartsWith (strToLower it.name) (strToLower s.value))).length : Int) := by
          omega
        simp only [tabCompletionFn, h1, Bool.false_eq_true, if_false, if_true, h2,
          if_neg hneg, if_pos hlt]
  · decide
  · decide
  · decide
  · decide

/-- Witness for C7: from an existing cursor at index 0 over the two
scenario candidates, a next-trigger advances the index to
`(0 + 1) % 2`. -/
theorem c7_tab_completion_witness :
    (0 : Int) ≤ 0 ∧ 0 < ([itemTemp, itemTest] : List FileItem).length ∧
    (tabCompletionFn fsEmpty cfgDefault
        { s7 with autoCompletion := some ⟨some 0, [itemTemp, itemTest]⟩ }
        true).autoCompletion =
      some ⟨some ((0 + 1) % (((2 : Nat) : Int))), [itemTemp, itemTest]⟩ :=
  ⟨le_refl 0, by decide,
   (c7_tab_completion_cycling fsEmpty cfgDefault
      { s7 with autoCompletion := some ⟨some 0, [itemTemp, itemTest]⟩ }
      ⟨some 0, [itemTemp, itemTest]⟩ 0).1 rfl rfl rfl (le_refl 0) (by decide)⟩

/-! ## Claim C9: the rename action -/

/-- C9: once the rename prompt is confirmed, the handler completes
normally; when the collaborator rename fails, the user-visible error
message naming the old leaf is surfaced and the pending file name is
the old leaf name; when it succeeds, the pending file name is the new
leaf (the basename of the entered path); in both cases the session is
back in Browsing mode and a refresh has been started. -/
theorem c9_rename_outcomes (fs : Fs) (cfg : Config) (wsFolder : Option Uri)
    (r : String) (renameOk : Bool) (s : BrowserState) (t : FileType)
    (fileName : String) (parentPath : Uri)
    (hstat : fs.stat s.path = some t)
    (hpop : Path.pop s.path = (some fileName, parentPath)) :
    ∃ s2 effs, runRename fs cfg wsFolder (some r) renameOk s = .ok (s2, effs) ∧
      s2.file = some (if renameOk then basename r else fileName) ∧
      s2.inActions = false ∧
      s2.updates = s.updates + 1 ∧
      (renameOk = false →
        Effect.errorMessage ("Failed to rename " ++
          (if (t &&& FileType.Directory) == FileType.Directory then "folder"
           else "file") ++ " \"" ++ fileName ++ "\"") ∈ effs) ∧
      (renameOk = true → ∀ m, Effect.errorMessage m ∉ effs) := by
  cases renameOk with
  | true =>
    simp only [runRename, hstat, hpop, eq_self_iff_true, if_true]
    refine ⟨_, _, rfl, ?_, ?_, ?_, ?_, ?_⟩
    · rw [(updateAtomic_proj fs cfg _).2.1]
    · rw [(updateAtomic_proj fs cfg _).2.2.2.1]
    · rw [(updateAtomic_proj fs cfg _).2.2.2.2.2.2]
    · intro hcon
      exact absurd hcon (by decide)
    · intro _ m hm
      simp at hm
  | false =>
    simp only [runRename, hstat, hpop, eq_self_iff_true, if_true]
    refine ⟨_, _, rfl, ?_, ?_, ?_, ?_, ?_⟩
    · rw [(updateAtomic_proj fs cfg _).2.1]
      rfl
    · rw [(updateAtomic_proj fs cfg _).2.2.2.1]
    · rw [(updateAtomic_proj fs cfg _).2.2.2.2.2.2]
    · intro _
      simp
    · intro hcon
      exact absurd hcon (by decide)

/-- Concrete fixture for the rename witness: the session sits in
Actions mode on the file `/proj/old.txt`. -/
def s9 : BrowserState :=
  { baseState with path := Uri.file ["proj", "old.txt"], inActions := true }

def fs9 : Fs :=
  { stat := fun u =>
      if u = Uri.file ["proj", "old.txt"] then some FileType.File
      else if u = Uri.file ["proj"] then some FileType.Directory
      else none,
    readDir := fun u =>
      if u = Uri.file ["proj"] then [("old.txt", FileType.File)] else [],
    readFile := fun _ => "",
    drives := [] }

/-- Witness for C9: a failing rename of `/proj/old.txt` keeps the old
leaf name pending, surfaces the error message, returns to Browsing and
refreshes. -/
theorem c9_rename_outcomes_witness :
    fs9.stat s9.path = some FileType.File ∧
    Path.pop s9.path = (some "old.txt", Uri.file ["proj"]) ∧
    (∃ s2 effs,
      runRename fs9 cfgDefault none (some "new.txt") false s9 = .ok (s2, effs) ∧
      s2.file = some "old.txt" ∧ s2.inActions = false ∧
      Effect.errorMessage "Failed to rename file \"old.txt\"" ∈ effs) := by
  refine ⟨rfl, by decide, ?_⟩
  obtain ⟨s2, effs, h1, h2, h3, _, h5, _⟩ :=
    c9_rename_outcomes fs9 cfgDefault none "new.txt" false s9 FileType.File
      "old.txt" (Uri.file ["proj"]) rfl (by decide)
  exact ⟨s2, effs, h1, h2, h3, h5 rfl⟩

/-! ## Claim C1: overlapping refreshes -/

def uriA : Uri := Uri.file ["a"]

def uriB : Uri := Uri.file ["b"]

def uriC : Uri := Uri.file ["c"]

/-- Three directories; `/b` and `/c` have different listings. -/
def fsC1 : Fs :=
  { stat := fun u =>
      if u = uriA ∨ u = uriB ∨ u = uriC then some FileType.Directory else none,
    readDir := fun u =>
      if u = uriB then [("b.txt", FileType.File)]
      else if u = uriC then [("c.txt", FileType.File)]
      else [],
    readFile := fun _ => "",
    drives := [] }

/-- The initial world: a Browsing session at `/a`, no refresh in
flight. -/
def w0 : Conc.World :=
  { sh := { baseState with path := uriA, pathHistory := [(Uri.id uriA, none)] },
    tasks := [], nextId := 0 }

/-- The adversarial but event-loop-legal schedule: step into `/b`; its
refresh passes the stat await and issues `readDirectory(/b)`; a second
transition steps into `/c` mid-flight; the `/c` refresh runs to
completion; finally the `/b` readDirectory response arrives and commits
the stale listing. -/
def schedC1 : List Conc.CEvent :=
  [.stepInto uriB, .resume 0, .stepInto uriC, .resume 1, .resume 1, .resume 0]

/-- C1 (counterexample): under `schedC1` the session ends at path `/c`
while the presenter shows the listing of `/b` — the refresh triggered
by the earlier transition commits after the later one, and the shown
list is stale, contradicting the claimed ordering guarantee. -/
theorem c1_stale_commit_counterexample :
    (Conc.runEvents fsC1 cfgDefault w0 schedC1).sh.path = uriC ∧
    (Conc.runEvents fsC1 cfgDefault w0 schedC1).sh.currentItems =
      [FileItem.ofRecord cfgDefault ("b.txt", FileType.File)] ∧
    (sortRecords (fsC1.readDir uriC)).map (FileItem.ofRecord cfgDefault) =
      [FileItem.ofRecord cfgDefault ("c.txt", FileType.File)] ∧
    (Conc.runEvents fsC1 cfgDefault w0 schedC1).sh.currentItems ≠
      (sortRecords (fsC1.readDir uriC)).map (FileItem.ofRecord cfgDefault) := by
  refine ⟨?_, ?_, ?_, ?_⟩ <;> decide

/-- C1 (amended): the controller has no busy guard — the presenter busy
flag is only ever written — so a transition arriving while a refresh is
in flight is executed immediately rather than dropped or deferred (the
path moves to `/c` while the `/b` refresh is still parked, and both
refreshes are then in flight), and two overlapping refreshes can
interleave so that the earlier one commits last: the run ends
re-enabled at path `/c` with the presenter holding the listing of
`/b`. -/
theorem c1_no_busy_guard_amended :
    (Conc.runEvents fsC1 cfgDefault w0 [.stepInto uriB, .resume 0]).tasks ≠ [] ∧
    (Conc.runEvents fsC1 cfgDefault w0
      [.stepInto uriB, .resume 0, .stepInto uriC]).sh.path = uriC ∧
    (Conc.runEvents fsC1 cfgDefault w0
      [.stepInto uriB, .resume 0, .stepInto uriC]).tasks.length = 2 ∧
    (Conc.runEvents fsC1 cfgDefault w0 schedC1).sh.enabled = true ∧
    (Conc.runEvents fsC1 cfgDefault w0 schedC1).sh.path = uriC ∧
    (Conc.runEvents fsC1 cfgDefault w0 schedC1).sh.currentItems =
      (sortRecords (fsC1.readDir uriB)).map (FileItem.ofRecord cfgDefault) := by
  refine ⟨?_, ?_, ?_, ?_, ?_, ?_⟩ <;> decide

end FB
